import Mathlib

/-!
Verification development for the `tools/build-manifest.js` utility of the
script-bucket repository: a shallow embedding of the directive parser and the
manifest builder, together with theorems settling the specification claims.

Strings are modelled by Lean `String`/`List Char`; the JavaScript regular
expressions are embedded as executable matching functions whose behaviour is
derived clause by clause from the regex source (greedy quantifier semantics,
anchoring, and character classes made explicit).
-/

namespace ScriptBucket

/-- JavaScript regex class `\s` (equivalently the character set removed by
`String.prototype.trim`): ASCII whitespace, NBSP, the Unicode space separators,
the line separators and the BOM. -/
def isJsSpace (c : Char) : Bool :=
  c == ' ' || c == '\t' || c == '\n' || c.val == 11 || c.val == 12 || c == '\r' ||
  c.val == 0xa0 || c.val == 0x1680 || (0x2000 ≤ c.val && c.val ≤ 0x200a) ||
  c.val == 0x2028 || c.val == 0x2029 || c.val == 0x202f || c.val == 0x205f ||
  c.val == 0x3000 || c.val == 0xfeff

/-- JavaScript regex class `\w`: ASCII letters, digits and underscore. -/
def isWordChar (c : Char) : Bool :=
  ('a' ≤ c && c ≤ 'z') || ('A' ≤ c && c ≤ 'Z') || ('0' ≤ c && c ≤ '9') || c == '_'

/-- Character class `[\w-]` used for the first capture of `ARG_RE`. -/
def isArgNameChar (c : Char) : Bool :=
  isWordChar c || c == '-'

/-- JavaScript `.` (dot) without the `s` flag: any character except the four
line terminators `\n`, `\r`, U+2028, U+2029. -/
def notLineTerm (c : Char) : Bool :=
  c != '\n' && c != '\r' && c.val != 0x2028 && c.val != 0x2029

/-- `String.prototype.trim` on a character list: strip `isJsSpace` characters
from both ends. -/
def jsTrim (l : List Char) : List Char :=
  ((l.dropWhile isJsSpace).reverse.dropWhile isJsSpace).reverse

/-- `content.split('\n')`: split a character list at every newline; a trailing
newline yields a trailing empty line, and the empty input yields one empty
line, exactly as in JavaScript. -/
def splitNl : List Char → List (List Char)
  | [] => [[]]
  | c :: rest =>
    if c = '\n' then [] :: splitNl rest
    else
      match splitNl rest with
      | l :: ls => (c :: l) :: ls
      | [] => [[c]]

/-- `trimmed.startsWith('#!')` — the shebang test of `parseScript`. -/
def isShebang : List Char → Bool
  | '#' :: '!' :: _ => true
  | _ => false

/-- `trimmed.startsWith('#')` — the comment test in the scan-termination
condition of `parseScript`. -/
def isHashStart : List Char → Bool
  | '#' :: _ => true
  | _ => false

mutual

/-- `value.split(/\s+/)` (main state): accumulate the current token until a
whitespace character starts a separator run. -/
def splitWsGo : List Char → List Char → List (List Char)
  | [], acc => [acc.reverse]
  | c :: rest, acc =>
    if isJsSpace c then acc.reverse :: splitWsSkip rest else splitWsGo rest (c :: acc)

/-- `value.split(/\s+/)` (separator state): consume the whitespace run; a run
reaching the end of input produces a trailing empty token, as in JavaScript. -/
def splitWsSkip : List Char → List (List Char)
  | [] => [[]]
  | c :: rest =>
    if isJsSpace c then splitWsSkip rest else splitWsGo rest [c]

end

/-- `value.split(/\s+/)` on a `String` (used by the `@header` directive). -/
def jsSplitWs (s : String) : List String :=
  (splitWsGo s.data []).map String.mk

/-- Stage of `DIRECTIVE_RE` after `#\s*@`: the tag is the greedy nonempty run
of word characters; it must be followed by at least one whitespace character
(`\s+`, consumed greedily), and `(.*)` then captures up to the end of the line
(a JavaScript dot stops at a line terminator). -/
def directiveTag (r2 : List Char) : Option (List Char × List Char) :=
  let tag := r2.takeWhile isWordChar
  let r3 := r2.dropWhile isWordChar
  if tag.isEmpty then none
  else
    match r3 with
    | [] => none
    | c :: _ =>
      if isJsSpace c then some (tag, (r3.dropWhile isJsSpace).takeWhile notLineTerm)
      else none

/-- Stage of `DIRECTIVE_RE` after the leading `#`: skip `\s*` greedily and
require the `@`. -/
def directiveAfterHash (rest : List Char) : Option (List Char × List Char) :=
  match rest.dropWhile isJsSpace with
  | '@' :: r2 => directiveTag r2
  | _ => none

/-- `DIRECTIVE_RE = /^#\s*@(\w+)\s+(.*)/` applied to one (trimmed) line:
a `#`, optional whitespace, `@`, a nonempty greedy run of word characters (the
tag), at least one whitespace character (consumed greedily), then `.*` (up to a
line terminator). Returns `(tag, rawValue)` on success. -/
def directiveMatch (t : List Char) : Option (List Char × List Char) :=
  match t with
  | '#' :: rest => directiveAfterHash rest
  | _ => none

/-- Modifier captured by groups 4/5 of `ARG_RE`: a bare `?`, a bare `...`, or
`=` followed by the rest of the line (the default value, group 5 minus the
leading `=`). -/
inductive ArgMod where
  | opt : ArgMod
  | variadic : ArgMod
  | dflt : String → ArgMod
deriving DecidableEq

/-- Strip a literal character sequence from the front of a list (used for the
fixed alternatives `string|number|boolean` of `ARG_RE`). -/
def dropLit : List Char → List Char → Option (List Char)
  | [], l => some l
  | p :: ps, c :: cs => if c = p then dropLit ps cs else none
  | _ :: _, [] => none

/-- The `(string|number|boolean)` alternation of `ARG_RE`. -/
def matchType (l : List Char) : Option (String × List Char) :=
  match dropLit ['s', 't', 'r', 'i', 'n', 'g'] l with
  | some r => some ("string", r)
  | none =>
    match dropLit ['n', 'u', 'm', 'b', 'e', 'r'] l with
    | some r => some ("number", r)
    | none =>
      match dropLit ['b', 'o', 'o', 'l', 'e', 'a', 'n'] l with
      | some r => some ("boolean", r)
      | none => none

/-- `ARG_RE = /^(\w[\w-]*)\s+(string|number|boolean)\s+"([^"]+)"(?:\s+(\?|\.\.\.|(=.+)))?$/`
applied to the trimmed `@arg` remainder: identifier, type keyword, nonempty
quoted description, then optionally whitespace and exactly one modifier,
anchored at both ends. Returns `(name, type, description, modifier)`. -/
def argMatch (cs : List Char) : Option (String × String × String × Option ArgMod) :=
  match cs with
  | [] => none
  | c0 :: rest =>
    if isWordChar c0 then
      let nm : List Char := c0 :: rest.takeWhile isArgNameChar
      let r1 := rest.dropWhile isArgNameChar
      match r1 with
      | [] => none
      | c1 :: _ =>
        if isJsSpace c1 then
          match matchType (r1.dropWhile isJsSpace) with
          | none => none
          | some (ty, r3) =>
            match r3 with
            | [] => none
            | c2 :: _ =>
              if isJsSpace c2 then
                match r3.dropWhile isJsSpace with
                | '"' :: r5 =>
                  match r5.takeWhile (· != '"'), r5.dropWhile (· != '"') with
                  | [], _ => none
                  | desc, '"' :: r6 =>
                    match r6 with
                    | [] => some (String.mk nm, ty, String.mk desc, none)
                    | c3 :: _ =>
                      if isJsSpace c3 then
                        match r6.dropWhile isJsSpace with
                        | ['?'] => some (String.mk nm, ty, String.mk desc, some ArgMod.opt)
                        | ['.', '.', '.'] =>
                          some (String.mk nm, ty, String.mk desc, some ArgMod.variadic)
                        | '=' :: d0 :: ds =>
                          if (d0 :: ds).all notLineTerm then
                            some (String.mk nm, ty, String.mk desc,
                              some (ArgMod.dflt (String.mk (d0 :: ds))))
                          else none
                        | _ => none
                      else none
                  | _, _ => none
                | _ => none
              else none
        else none
    else none

/-- `ENV_RE = /^(\w+)(?:\s+"([^"]+)")?$/` applied to the trimmed `@env`
remainder: an identifier, optionally followed by whitespace and a nonempty
quoted hint, anchored at both ends. Only the identifier is returned (the hint
is matched but dropped, as in the source). -/
def envMatch (cs : List Char) : Option String :=
  match cs with
  | [] => none
  | c0 :: _ =>
    if isWordChar c0 then
      let nm := cs.takeWhile isWordChar
      match cs.dropWhile isWordChar with
      | [] => some (String.mk nm)
      | c1 :: _ =>
        if isJsSpace c1 then
          match (cs.dropWhile isWordChar).dropWhile isJsSpace with
          | '"' :: r2 =>
            match r2.takeWhile (· != '"'), r2.dropWhile (· != '"') with
            | [], _ => none
            | _, ['"'] => some (String.mk nm)
            | _, _ => none
          | _ => none
        else none
    else none

/-- One parsed `@arg` record, mirroring the object pushed onto `meta.args`:
`required` is `!m[4]`; the `variadic: true` key is present exactly when the
modifier is `...` (absence is modelled as `false`, matching JavaScript
truthiness of a missing key); `default` is present exactly when group 5
matched, holding `m[5].slice(1)`. -/
structure ArgSpec where
  name : String
  type : String
  description : String
  required : Bool
  variadic : Bool
  default : Option String
deriving DecidableEq

/-- Build the ArgSpec pushed by the `case 'arg'` branch from the `ARG_RE`
captures. -/
def mkArg (nm ty d : String) (mod : Option ArgMod) : ArgSpec :=
  { name := nm
    type := ty
    description := d
    required := mod.isNone
    variadic := match mod with | some ArgMod.variadic => true | _ => false
    default := match mod with | some (ArgMod.dflt s) => some s | _ => none }

/-- The mutable `meta` record of `parseScript`. JavaScript `null` is `none`. -/
structure Meta where
  name : Option String
  description : Option String
  args : List ArgSpec
  deps : List String
  envs : List String
  output : String
  header : List String
  category : Option String
  tags : List String
  author : Option String
  platform : String
  examples : List String
  stdin : Bool
  version : Option String
deriving DecidableEq

/-- The initial `meta` object literal of `parseScript`. -/
def initialMeta : Meta :=
  { name := none
    description := none
    args := []
    deps := []
    envs := []
    output := "text"
    header := []
    category := none
    tags := []
    author := none
    platform := "all"
    examples := []
    stdin := false
    version := none }

/-- The `switch (directive)` of `parseScript`: dispatch one matched directive
(with its trimmed value) into the metadata record; unrecognized tags fall
through to the default (no case) and leave the record unchanged. -/
def applyDirective (meta : Meta) (directive : String) (value : String) : Meta :=
  match directive with
  | "name" => { meta with name := some value }
  | "description" => { meta with description := some value }
  | "arg" =>
    match argMatch value.data with
    | some (nm, ty, d, mod) => { meta with args := meta.args ++ [mkArg nm ty d mod] }
    | none => meta
  | "dep" => { meta with deps := meta.deps ++ [value] }
  | "env" =>
    match envMatch value.data with
    | some nm => { meta with envs := meta.envs ++ [nm] }
    | none => meta
  | "output" => { meta with output := value }
  | "header" => { meta with header := jsSplitWs value }
  | "category" => { meta with category := some value }
  | "tag" => { meta with tags := meta.tags ++ [value] }
  | "author" => { meta with author := some value }
  | "platform" => { meta with platform := value }
  | "example" => { meta with examples := meta.examples ++ [value] }
  | "stdin" => { meta with stdin := value == "true" }
  | "version" => { meta with version := some value }
  | _ => meta

/-- The case labels of the `switch` in `parseScript`, in source order. -/
def recognizedTags : List String :=
  ["name", "description", "arg", "dep", "env", "output", "header", "category",
   "tag", "author", "platform", "example", "stdin", "version"]

/-- The line loop of `parseScript`: trim the line; skip shebang lines; on a
`DIRECTIVE_RE` match, dispatch with the trimmed raw value and mark a directive
as seen; on a non-match, stop when a directive has been seen and the line is
neither blank nor `#`-starting, otherwise skip. -/
def parseLines : List (List Char) → Meta → Bool → Meta
  | [], meta, _ => meta
  | line :: rest, meta, seen =>
    let t := jsTrim line
    if isShebang t then parseLines rest meta seen
    else
      match directiveMatch t with
      | some (tag, raw) =>
        parseLines rest (applyDirective meta (String.mk tag) (String.mk (jsTrim raw))) true
      | none =>
        if seen && !t.isEmpty && !isHashStart t then meta
        else parseLines rest meta seen

/-- `parseScript(content)`: split on newlines and run the line loop from the
initial record with no directive seen. -/
def parseScript (content : String) : Meta :=
  parseLines (splitNl content.data) initialMeta false

/-- A directory tree as seen by `fs.readdirSync(..., { withFileTypes: true })`:
children are listed in readdir order. -/
inductive FS where
  | file (name : String) (content : String) : FS
  | dir (name : String) (children : List FS) : FS

/-- `name.startsWith(p)` on strings, via structurally recursive list code. -/
def strStartsWith (s pre : String) : Bool :=
  pre.data.isPrefixOf s.data

/-- `name.endsWith(p)` on strings: suffix test as a reversed-prefix test. -/
def strEndsWith (s post : String) : Bool :=
  post.data.reverse.isPrefixOf s.data.reverse

/-- Join path components with the (POSIX) path separator. -/
def joinPath : List String → String
  | [] => ""
  | [x] => x
  | x :: y :: xs => x ++ "/" ++ joinPath (y :: xs)

/-- `path.relative(base, full)` for the only case the builder exercises: `base`
is an ancestor of `full`, so the result is the remaining components joined. -/
def relPath (base full : List String) : String :=
  joinPath (full.drop base.length)

mutual

/-- One entry step of `walkDir`: a directory is always recursed into; a file is
kept when its name ends in `.sh` and does not start with `_`, paired with its
path relative to `base`. -/
def walkOne (dirPath base : List String) : FS → List (String × String)
  | FS.file n c =>
    if strEndsWith n ".sh" && !strStartsWith n "_" then [(relPath base (dirPath ++ [n]), c)]
    else []
  | FS.dir n children => walkMany (dirPath ++ [n]) base children
termination_by structural e => e

/-- `walkDir(dir, base)`: fold `walkOne` over the children of a directory at
`dirPath`, concatenating results in readdir order. -/
def walkMany (dirPath base : List String) : List FS → List (String × String)
  | [] => []
  | e :: t => walkOne dirPath base e ++ walkMany dirPath base t
termination_by structural l => l

end

/-- The entry list computed by `buildManifest`: `walkDir(SCRIPTS_DIR, repoRoot)`
with `SCRIPTS_DIR = <repo>/scripts` and `repoRoot = <repo>`; the repository
root is modelled as `[]`, so the walk of the scripts directory starts at
`["scripts"]` with base `[]`. `tree` is the children of the scripts directory. -/
def buildEntries (tree : List FS) : List (String × String) :=
  walkMany ["scripts"] [] tree

/-- One manifest entry, mirroring the object literal stored into
`scripts[meta.name]` (field for field, in source order; the parser's `stdin`
flag has no counterpart here). -/
structure ScriptRecord where
  name : Option String
  description : Option String
  args : List ArgSpec
  deps : List String
  envs : List String
  output : String
  header : List String
  category : Option String
  tags : List String
  author : Option String
  platform : String
  examples : List String
  path : String
  version : Option String
deriving DecidableEq

/-- The object literal assigned to `scripts[meta.name]` in `buildManifest`. -/
def mkRecord (meta : Meta) (relativePath : String) : ScriptRecord :=
  { name := meta.name
    description := meta.description
    args := meta.args
    deps := meta.deps
    envs := meta.envs
    output := meta.output
    header := meta.header
    category := meta.category
    tags := meta.tags
    author := meta.author
    platform := meta.platform
    examples := meta.examples
    path := relativePath
    version := meta.version }

/-- The key list of the object literal stored into `scripts[meta.name]`, in
source order. -/
def recordFields : List String :=
  ["name", "description", "args", "deps", "envs", "output", "header", "category",
   "tags", "author", "platform", "examples", "path", "version"]

/-- JavaScript falsiness of a string-or-null value, as tested by `!meta.name`
and `!meta.description`: `null` and the empty string are falsy. -/
def jsFalsy : Option String → Bool
  | none => true
  | some s => s == ""

/-- The accumulated state of the `buildManifest` loop: the `scripts` object
(an insertion-ordered key/value list, as JavaScript object properties are) and
the `errors` array. -/
structure Build where
  scripts : List (String × ScriptRecord)
  errors : List String
deriving DecidableEq

/-- JavaScript property assignment `scripts[k] = v`: update an existing key in
place, else append the new key at the end. -/
def upsert (m : List (String × ScriptRecord)) (k : String) (v : ScriptRecord) :
    List (String × ScriptRecord) :=
  match m with
  | [] => [(k, v)]
  | (k0, v0) :: rest => if k0 == k then (k, v) :: rest else (k0, v0) :: upsert rest k v

/-- The body of the `for` loop of `buildManifest` for one entry
`(relativePath, content)`: parse, reject on falsy `name` (recording
"<relativePath>: missing @name"), else reject on falsy `description`
(recording "<relativePath>: missing @description"), else store the record
under the script's name. -/
def processEntry (acc : Build) (e : String × String) : Build :=
  let meta := parseScript e.2
  if jsFalsy meta.name then
    { acc with errors := acc.errors ++ [e.1 ++ ": missing @name"] }
  else if jsFalsy meta.description then
    { acc with errors := acc.errors ++ [e.1 ++ ": missing @description"] }
  else
    { acc with scripts := upsert acc.scripts (meta.name.getD "") (mkRecord meta e.1) }

/-- The whole `for` loop of `buildManifest` over the entry list. -/
def processEntries (entries : List (String × String)) (acc : Build) : Build :=
  entries.foldl processEntry acc

/-- The manifest object: `{ version: 1, updated: <timestamp>, scripts }`. The
timestamp is ambient wall-clock input, passed in as a parameter. -/
structure Manifest where
  version : Nat
  updated : String
  scripts : List (String × ScriptRecord)
deriving DecidableEq

/-- `buildManifest()` over a modelled scripts-directory tree: walk, process
every entry, and return the manifest together with the collected warnings
(the file write and console output are I/O effects outside the model). -/
def buildManifest (tree : List FS) (now : String) : Manifest × List String :=
  let b := processEntries (buildEntries tree) ⟨[], []⟩
  ({ version := 1, updated := now, scripts := b.scripts }, b.errors)

/-- The five output-format values enumerated by the specification (used to
state membership claims about the `output` field; the parser itself never
consults this set). -/
def specOutputFormats : List String :=
  ["text", "tsv", "csv", "json", "ndjson"]

/-- The thirteen directive tags enumerated in the specification's overview
(`@name`, `@arg`, `@dep`, `@env`, `@output`, `@header`, `@category`, `@tag`,
`@author`, `@platform`, `@example`, `@stdin`, `@version`; `@description` is
absent from that enumeration). -/
def specThirteenTags : List String :=
  ["name", "arg", "dep", "env", "output", "header", "category", "tag",
   "author", "platform", "example", "stdin", "version"]

/-- The directive tag recognized on a raw line, if any (the first capture of
`DIRECTIVE_RE` on the trimmed line, as a `String`). -/
def tagOfLine (l : List Char) : Option String :=
  (directiveMatch (jsTrim l)).map fun q => String.mk q.1

section ListHelpers

variable {α : Type} {p : α → Bool}

lemma takeWhile_all : ∀ (l : List α), (∀ c ∈ l, p c = true) → l.takeWhile p = l := by
  intro l h
  induction l with
  | nil => rfl
  | cons a t ih =>
    rw [List.takeWhile_cons, if_pos (h a (by simp))]
    rw [ih fun c hc => h c (by simp [hc])]

lemma dropWhile_head_false :
    ∀ (l : List α), (∀ c, l.head? = some c → p c = false) → l.dropWhile p = l := by
  intro l h
  cases l with
  | nil => rfl
  | cons a t => rw [List.dropWhile_cons, h a rfl]; simp

lemma takeWhile_head_false :
    ∀ (l : List α), (∀ c, l.head? = some c → p c = false) → l.takeWhile p = [] := by
  intro l h
  cases l with
  | nil => rfl
  | cons a t => rw [List.takeWhile_cons, h a rfl]; simp

end ListHelpers

/-- A line matched by `DIRECTIVE_RE` is never a shebang line: after the `#`,
the regex requires optional whitespace and then `@`, and `!` is neither. -/
lemma shebang_no_directive : ∀ (t : List Char), isShebang t = true → directiveMatch t = none := by
  intro t h
  unfold isShebang at h
  split at h
  · rfl
  · exact absurd h (by decide)

/-- Contrapositive form used to reduce the shebang test inside `parseLines`. -/
lemma shebang_false_of_directive {t : List Char} {x : List Char × List Char}
    (h : directiveMatch t = some x) : isShebang t = false := by
  cases hs : isShebang t
  · rfl
  · rw [shebang_no_directive t hs] at h
    exact Option.noConfusion h

/-- C1 counterexample: the claim asserts that a `// @name x` line is
recognized exactly as `# @name x` is; on the code, `# @name x` sets the name
while `// @name x` is not recognized at all (the directive pattern requires a
leading `#`). -/
theorem c1_counterexample :
    (parseScript "# @name x").name = some "x"
    ∧ (parseScript "// @name x").name = none
    ∧ directiveMatch (jsTrim (String.data "// @name x")) = none := by
  refine ⟨by decide, by decide, by decide⟩

/-- C1 (amended): a trimmed line consisting of the `#` comment marker,
optional whitespace, `@`, a nonempty tag of word characters, at least one
whitespace character, and a remainder is recognized as a directive with that
tag and remainder; a `//`-style line is never recognized as a directive — the
pattern requires the `#` marker. -/
theorem c1_hash_marker_only (sp1 sp2 tag rest : List Char)
    (h1 : ∀ c ∈ sp1, isJsSpace c = true)
    (h2 : tag ≠ [])
    (h3 : ∀ c ∈ tag, isWordChar c = true)
    (h4 : sp2 ≠ [])
    (h5 : ∀ c ∈ sp2, isJsSpace c = true)
    (h6 : ∀ c, sp2.head? = some c → isWordChar c = false)
    (h7 : ∀ c ∈ rest, notLineTerm c = true)
    (h8 : ∀ c, rest.head? = some c → isJsSpace c = false) :
    directiveMatch ('#' :: (sp1 ++ '@' :: (tag ++ sp2 ++ rest))) = some (tag, rest)
    ∧ ∀ cs, directiveMatch ('/' :: cs) = none := by
  constructor
  · have e1 : (sp1 ++ '@' :: (tag ++ sp2 ++ rest)).dropWhile isJsSpace
        = '@' :: (tag ++ sp2 ++ rest) := by
      rw [List.dropWhile_append_of_pos h1, List.dropWhile_cons]
      simp [show isJsSpace '@' = false from by decide]
    have e2 : (tag ++ sp2 ++ rest).takeWhile isWordChar = tag := by
      rw [List.append_assoc, List.takeWhile_append_of_pos h3,
        takeWhile_head_false (sp2 ++ rest)]
      · simp
      · intro c hc
        cases sp2 with
        | nil => exact absurd rfl h4
        | cons s0 stl => exact h6 c (by simpa using hc)
    have e3 : (tag ++ sp2 ++ rest).dropWhile isWordChar = sp2 ++ rest := by
      rw [List.append_assoc, List.dropWhile_append_of_pos h3]
      apply dropWhile_head_false
      intro c hc
      cases sp2 with
      | nil => exact absurd rfl h4
      | cons s0 stl => exact h6 c (by simpa using hc)
    have e4 : (sp2 ++ rest).dropWhile isJsSpace = rest := by
      rw [List.dropWhile_append_of_pos h5, dropWhile_head_false rest h8]
    have e5 : rest.takeWhile notLineTerm = rest := takeWhile_all rest h7
    show directiveAfterHash (sp1 ++ '@' :: (tag ++ sp2 ++ rest)) = some (tag, rest)
    unfold directiveAfterHash
    rw [e1]
    show directiveTag (tag ++ sp2 ++ rest) = some (tag, rest)
    unfold directiveTag
    simp only [e2, e3]
    rw [if_neg (by simpa using h2)]
    cases sp2 with
    | nil => exact absurd rfl h4
    | cons s0 stl =>
      have hs0 : isJsSpace s0 = true := h5 s0 (by simp)
      simp only [List.cons_append]
      rw [if_pos hs0]
      rw [show (s0 :: (stl ++ rest)).dropWhile isJsSpace = rest from by
        simpa [List.cons_append] using e4]
      rw [e5]
  · intro cs
    rfl

/-- Witness for C1: the amended theorem applied to the concrete line
`# @name x`, recognizing tag `name` with remainder `x`. -/
theorem c1_witness :
    directiveMatch ('#' :: ([' '] ++ '@' :: (['n', 'a', 'm', 'e'] ++ [' '] ++ ['x'])))
      = some (['n', 'a', 'm', 'e'], ['x']) :=
  (c1_hash_marker_only [' '] [' '] ['n', 'a', 'm', 'e'] ['x']
    (by decide) (by decide) (by decide) (by decide) (by decide)
    (by intro c hc; simp at hc; subst hc; decide)
    (by decide)
    (by intro c hc; simp at hc; subst hc; decide)).1

/-- A shebang line starts with `#`. -/
lemma hash_of_shebang {t : List Char} (h : isShebang t = true) : isHashStart t = true := by
  unfold isShebang at h
  split at h
  · rfl
  · exact absurd h (by decide)

/-- Stepping lemma: a line whose trimmed form is a shebang is skipped. -/
lemma parseLines_shebang {line : List Char} {rest : List (List Char)} {meta : Meta}
    {seen : Bool} (h : isShebang (jsTrim line) = true) :
    parseLines (line :: rest) meta seen = parseLines rest meta seen := by
  conv_lhs => rw [parseLines.eq_def]
  simp [h]

/-- Stepping lemma: a line matching `DIRECTIVE_RE` dispatches its tag and
trimmed value and marks the directive block as seen. -/
lemma parseLines_directive {line : List Char} {rest : List (List Char)} {meta : Meta}
    {seen : Bool} {tag raw : List Char}
    (h : directiveMatch (jsTrim line) = some (tag, raw)) :
    parseLines (line :: rest) meta seen
      = parseLines rest (applyDirective meta (String.mk tag) (String.mk (jsTrim raw))) true := by
  conv_lhs => rw [parseLines.eq_def]
  simp [shebang_false_of_directive h, h]

/-- Stepping lemma: a non-matching line either terminates the scan (directive
seen, nonblank, not `#`-starting) or is skipped. -/
lemma parseLines_nomatch {line : List Char} {rest : List (List Char)} {meta : Meta}
    {seen : Bool} (h : directiveMatch (jsTrim line) = none) :
    parseLines (line :: rest) meta seen
      = if (seen && !(jsTrim line).isEmpty && !isHashStart (jsTrim line)) = true then meta
        else parseLines rest meta seen := by
  by_cases hsb : isShebang (jsTrim line) = true
  · rw [parseLines_shebang hsb, if_neg]
    simp [hash_of_shebang hsb]
  · conv_lhs => rw [parseLines.eq_def]
    simp [hsb, h]

/-- Stepping lemma: the terminating case of the scan. -/
lemma parseLines_stop {line : List Char} {rest : List (List Char)} {meta : Meta}
    (h : directiveMatch (jsTrim line) = none)
    (he : (jsTrim line).isEmpty = false) (hh : isHashStart (jsTrim line) = false) :
    parseLines (line :: rest) meta true = meta := by
  rw [parseLines_nomatch h, if_pos]
  simp [he, hh]

/-- C6 counterexample: under the specification's notion of comment (which
includes `//`-style markers), a `//`-comment line between directives should
not terminate the scan; on the code it does — with a `// note` line between
them the later `@description` is not applied, while with `# note` it is. -/
theorem c6_counterexample :
    (parseScript "# @name a\n// note\n# @description d").description = none
    ∧ (parseScript "# @name a\n# note\n# @description d").description = some "d" :=
  ⟨by decide, by decide⟩

/-- C6 (amended): once a directive has been seen, the first non-matching line
that is neither blank nor a `#`-starting comment terminates the scan (no later
line affects the record); before any directive has been seen, every
non-matching line is skipped without terminating the scan. A `//`-style line
is not a comment for this rule: it terminates the scan like any other
non-`#` line. -/
theorem c6_termination (line : List Char) (rest : List (List Char)) (meta : Meta)
    (h : directiveMatch (jsTrim line) = none) :
    (((jsTrim line).isEmpty = false ∧ isHashStart (jsTrim line) = false) →
      parseLines (line :: rest) meta true = meta)
    ∧ parseLines (line :: rest) meta false = parseLines rest meta false := by
  constructor
  · rintro ⟨he, hh⟩
    exact parseLines_stop h he hh
  · rw [parseLines_nomatch h]
    simp

/-- Witness for C6: the terminator line `end` ends the scan when a directive
has been seen, and is skipped when none has been. -/
theorem c6_witness :
    parseLines [['e', 'n', 'd']] initialMeta true = initialMeta
    ∧ parseLines [['e', 'n', 'd']] initialMeta false = parseLines [] initialMeta false :=
  ⟨(c6_termination ['e', 'n', 'd'] [] initialMeta (by decide)).1 ⟨by decide, by decide⟩,
   (c6_termination ['e', 'n', 'd'] [] initialMeta (by decide)).2⟩

/-- C8: an `@arg` directive whose remainder fails the arg grammar is silently
dropped — the metadata record (in particular its `args` sequence) is left
unchanged, nothing is recorded anywhere, and scanning continues with the
following lines (with the directive counted as seen). -/
theorem c8_malformed_arg (line raw : List Char) (rest : List (List Char)) (meta : Meta)
    (seen : Bool)
    (h1 : directiveMatch (jsTrim line) = some (['a', 'r', 'g'], raw))
    (h2 : argMatch (jsTrim raw) = none) :
    parseLines (line :: rest) meta seen = parseLines rest meta true
    ∧ ∀ (m : Meta) (v : String), argMatch v.data = none → applyDirective m "arg" v = m := by
  have key : ∀ (m : Meta) (v : String), argMatch v.data = none → applyDirective m "arg" v = m := by
    intro m v hv
    simp [applyDirective, hv]
  constructor
  · rw [parseLines_directive h1]
    rw [key meta (String.mk (jsTrim raw)) (by simpa using h2)]
  · exact key

/-- Witness for C8: the malformed line `# @arg bad` leaves the record
unchanged and scanning continues. -/
theorem c8_witness :
    parseLines [String.data "# @arg bad"] initialMeta false = parseLines [] initialMeta true :=
  (c8_malformed_arg (String.data "# @arg bad") (String.data "bad") [] initialMeta false
    (by decide) (by decide)).1

/-- A directive tag that is not a case label of the switch leaves the record
unchanged. -/
lemma applyDirective_unrecognized (d : String) (hd : d ∉ recognizedTags) :
    ∀ (m : Meta) (v : String), applyDirective m d v = m := by
  intro m v
  unfold applyDirective
  split <;> first | rfl | simp_all [recognizedTags]

/-- C10 counterexample: the claim counts thirteen recognized tags — the
specification's overview enumerates thirteen, omitting `description` — yet a
`# @description hey` line, whose tag is outside that set of thirteen, does
modify the metadata record. -/
theorem c10_counterexample :
    "description" ∉ specThirteenTags
    ∧ (parseScript "# @description hey").description = some "hey"
    ∧ initialMeta.description = none :=
  ⟨by decide, by decide, by decide⟩

/-- C10 (amended): a line matching the directive pattern whose tag is not one
of the fourteen case labels of the switch (name, description, arg, dep, env,
output, header, category, tag, author, platform, example, stdin, version)
leaves every field of the metadata record unchanged, yet still counts as a
recognized directive for the termination rule: after it, the next
non-`#`-starting, nonblank, non-matching line ends the scan. -/
theorem c10_unrecognized_tag (line tag raw : List Char) (rest : List (List Char))
    (meta : Meta) (seen : Bool)
    (h1 : directiveMatch (jsTrim line) = some (tag, raw))
    (h2 : String.mk tag ∉ recognizedTags) :
    parseLines (line :: rest) meta seen = parseLines rest meta true
    ∧ (∀ (v : String), applyDirective meta (String.mk tag) v = meta)
    ∧ ∀ (l2 : List Char) (rest2 : List (List Char)),
        directiveMatch (jsTrim l2) = none → (jsTrim l2).isEmpty = false →
        isHashStart (jsTrim l2) = false →
        parseLines (line :: l2 :: rest2) meta seen = meta := by
  refine ⟨?_, fun v => applyDirective_unrecognized _ h2 meta v, ?_⟩
  · rw [parseLines_directive h1, applyDirective_unrecognized _ h2]
  · intro l2 rest2 g1 g2 g3
    rw [parseLines_directive h1, applyDirective_unrecognized _ h2]
    exact parseLines_stop g1 g2 g3

/-- Witness for C10: `# @flag x` matches the directive pattern with the
unrecognized tag `flag`; it changes nothing, and a following `end` line
terminates the scan. -/
theorem c10_witness :
    parseLines [String.data "# @flag x"] initialMeta false = parseLines [] initialMeta true
    ∧ parseLines [String.data "# @flag x", ['e', 'n', 'd']] initialMeta false = initialMeta :=
  ⟨(c10_unrecognized_tag (String.data "# @flag x") ['f', 'l', 'a', 'g'] (String.data "x") []
      initialMeta false (by decide) (by decide)).1,
   (c10_unrecognized_tag (String.data "# @flag x") ['f', 'l', 'a', 'g'] (String.data "x") []
      initialMeta false (by decide) (by decide)).2.2 ['e', 'n', 'd'] []
      (by decide) (by decide) (by decide)⟩

/-- C3: for any file entry, a parse result with a falsy `name` records exactly
the error `"<relative-path>: missing @name"` and leaves the scripts mapping
untouched (so a file missing both fields yields exactly this one warning); a
truthy `name` with a falsy `description` records exactly
`"<relative-path>: missing @description"` and leaves the mapping untouched;
and the loop then continues with the remaining entries. -/
theorem c3_missing_name_description (acc : Build) (p c : String) :
    (jsFalsy (parseScript c).name = true →
      processEntry acc (p, c) = ⟨acc.scripts, acc.errors ++ [p ++ ": missing @name"]⟩)
    ∧ (jsFalsy (parseScript c).name = false → jsFalsy (parseScript c).description = true →
      processEntry acc (p, c) = ⟨acc.scripts, acc.errors ++ [p ++ ": missing @description"]⟩)
    ∧ ∀ (rest : List (String × String)),
        processEntries ((p, c) :: rest) acc = processEntries rest (processEntry acc (p, c)) := by
  refine ⟨fun h => ?_, fun h1 h2 => ?_, fun rest => rfl⟩
  · simp [processEntry, h]
  · simp [processEntry, h1, h2]

/-- Witness for C3: a file with only `@description` gets exactly the
missing-`@name` warning; a file with only `@name` gets exactly the
missing-`@description` warning. -/
theorem c3_witness :
    processEntry ⟨[], []⟩ ("scripts/a.sh", "# @description d")
      = ⟨[], ["scripts/a.sh: missing @name"]⟩
    ∧ processEntry ⟨[], []⟩ ("scripts/b.sh", "# @name n")
      = ⟨[], ["scripts/b.sh: missing @description"]⟩ :=
  ⟨(c3_missing_name_description ⟨[], []⟩ "scripts/a.sh" "# @description d").1 (by decide),
   (c3_missing_name_description ⟨[], []⟩ "scripts/b.sh" "# @name n").2.1 (by decide) (by decide)⟩

/-- Dispatching any directive other than `output` leaves the `output` field
unchanged. -/
lemma applyDirective_output_ne (m : Meta) (d v : String) (hd : d ≠ "output") :
    (applyDirective m d v).output = m.output := by
  unfold applyDirective
  split <;> first | rfl | (split <;> rfl) | simp_all

/-- The scan never changes the `output` field unless some line carries the
`output` tag. -/
lemma parseLines_output (lines : List (List Char)) (meta : Meta) (seen : Bool)
    (h : ∀ l ∈ lines, tagOfLine l ≠ some "output") :
    (parseLines lines meta seen).output = meta.output := by
  induction lines generalizing meta seen with
  | nil => rfl
  | cons line rest ih =>
    have hrest : ∀ l ∈ rest, tagOfLine l ≠ some "output" :=
      fun l hl => h l (by simp [hl])
    cases hdm : directiveMatch (jsTrim line) with
    | none =>
      rw [parseLines_nomatch hdm]
      split
      · rfl
      · exact ih _ _ hrest
    | some pr =>
      obtain ⟨tag, raw⟩ := pr
      rw [parseLines_directive hdm, ih _ _ hrest]
      apply applyDirective_output_ne
      intro hcon
      apply h line (by simp)
      simp [tagOfLine, hdm, hcon]

/-- C5 counterexample: the claim asserts the `output` field is always one of
the five enumerated values; the parser stores any `@output` value verbatim,
so `# @output xml` produces `output = "xml"`, outside the set. -/
theorem c5_counterexample :
    (parseScript "# @name a\n# @description d\n# @output xml").output = "xml"
    ∧ (parseScript "# @name a\n# @description d\n# @output xml").output ∉ specOutputFormats :=
  ⟨by decide, by decide⟩

/-- C5 (amended): the `output` field equals `"text"` whenever no line of the
input carries an `output` directive; when an `@output` directive is present
its value is stored verbatim, with no membership check against the
five-format set. -/
theorem c5_output_default (content : String)
    (h : ∀ l ∈ splitNl content.data, tagOfLine l ≠ some "output") :
    (parseScript content).output = "text" := by
  unfold parseScript
  rw [parseLines_output _ _ _ h]
  rfl

/-- Witness for C5: a file with `@name` and `@description` but no `@output`
has output format `text`. -/
theorem c5_witness :
    (parseScript "# @name a\n# @description d").output = "text" :=
  c5_output_default "# @name a\n# @description d" (by decide)

/-- C7: when two entries both parse to the same nonempty name and both have a
truthy description, processing them from an empty state yields exactly one
scripts entry under that name — the record of the later entry — and no
error is recorded. -/
theorem c7_last_write_wins (p1 c1 p2 c2 n : String)
    (h1 : (parseScript c1).name = some n) (h2 : (parseScript c2).name = some n)
    (hn : n ≠ "")
    (hd1 : jsFalsy (parseScript c1).description = false)
    (hd2 : jsFalsy (parseScript c2).description = false) :
    processEntries [(p1, c1), (p2, c2)] ⟨[], []⟩
      = ⟨[(n, mkRecord (parseScript c2) p2)], []⟩ := by
  have hb : (n == "") = false := by
    cases hbeq : n == ""
    · rfl
    · exact absurd (eq_of_beq hbeq) hn
  have hfsome : jsFalsy (some n) = false := by simpa [jsFalsy] using hb
  show processEntry (processEntry ⟨[], []⟩ (p1, c1)) (p2, c2) = _
  have s1 : processEntry ⟨[], []⟩ (p1, c1)
      = ⟨[(n, mkRecord (parseScript c1) p1)], []⟩ := by
    simp [processEntry, h1, hfsome, hd1, upsert]
  rw [s1]
  simp [processEntry, h2, hfsome, hd2, upsert]

/-- Witness for C7: two concrete files both named `foo`; the second one's
record wins and no warning is produced. -/
theorem c7_witness :
    processEntries
      [("scripts/a.sh", "# @name foo\n# @description a"),
       ("scripts/b.sh", "# @name foo\n# @description b")] ⟨[], []⟩
      = ⟨[("foo", mkRecord (parseScript "# @name foo\n# @description b") "scripts/b.sh")], []⟩ :=
  c7_last_write_wins "scripts/a.sh" "# @name foo\n# @description a"
    "scripts/b.sh" "# @name foo\n# @description b" "foo"
    (by decide) (by decide) (by decide) (by decide) (by decide)

/-- Joining a nonempty list of path components after a nonempty front splits
at the separator. -/
lemma joinPath_app (pre l : List String) (h1 : pre ≠ []) (h2 : l ≠ []) :
    joinPath (pre ++ l) = joinPath pre ++ "/" ++ joinPath l := by
  induction pre with
  | nil => exact absurd rfl h1
  | cons x xs ih =>
    cases xs with
    | nil =>
      cases l with
      | nil => exact absurd rfl h2
      | cons y ys => simp [joinPath]
    | cons x2 xs2 =>
      have e0 : joinPath (x :: ((x2 :: xs2) ++ l)) = x ++ "/" ++ joinPath ((x2 :: xs2) ++ l) := by
        rw [List.cons_append]
        rfl
      rw [List.cons_append, e0, ih (by simp)]
      show x ++ "/" ++ (joinPath (x2 :: xs2) ++ "/" ++ joinPath l)
        = (x ++ "/" ++ joinPath (x2 :: xs2)) ++ "/" ++ joinPath l
      simp [String.append_assoc]

mutual

/-- Walking a single entry from a nonempty directory path with empty base
yields the same files as walking it from the root, with the directory path
joined in front of every relative path. -/
lemma walkOne_shift (e : FS) (pre : List String) (h : pre ≠ []) :
    walkOne pre [] e = (walkOne [] [] e).map (fun q => (joinPath pre ++ "/" ++ q.1, q.2)) := by
  cases e with
  | file n c =>
    by_cases he : (strEndsWith n ".sh" && !strStartsWith n "_") = true
    · simp only [walkOne, he, if_true, relPath, List.length_nil, List.drop_zero,
        List.nil_append, List.map]
      rw [joinPath_app pre [n] h (by simp)]
    · simp [walkOne, he]
  | dir n ch =>
    show walkMany (pre ++ [n]) [] ch = (walkMany ([] ++ [n]) [] ch).map _
    rw [walkMany_shift ch (pre ++ [n]) (by simp),
      walkMany_shift ch ([] ++ [n]) (by simp), List.map_map]
    apply List.map_congr_left
    intro q _
    simp only [Function.comp_apply, List.nil_append]
    rw [joinPath_app pre [n] h (by simp)]
    simp [String.append_assoc]

/-- List version of `walkOne_shift`. -/
lemma walkMany_shift (l : List FS) (pre : List String) (h : pre ≠ []) :
    walkMany pre [] l = (walkMany [] [] l).map (fun q => (joinPath pre ++ "/" ++ q.1, q.2)) := by
  cases l with
  | nil => rfl
  | cons e t =>
    show walkOne pre [] e ++ walkMany pre [] t = _
    rw [walkOne_shift e pre h, walkMany_shift t pre h]
    show _ = (walkOne [] [] e ++ walkMany [] [] t).map _
    rw [List.map_append]

end

/-- C2 counterexample: the claim asserts the stored `path` is relative to the
scan root (the scripts directory); for a file `foo.sh` directly inside it the
path relative to the scan root is `foo.sh`, yet the manifest stores
`scripts/foo.sh` — the path relative to the repository root. -/
theorem c2_counterexample :
    (processEntries (buildEntries [FS.file "foo.sh" "# @name foo\n# @description d"])
        ⟨[], []⟩).scripts.map (fun q => q.2.path) = ["scripts/foo.sh"]
    ∧ walkMany [] [] [FS.file "foo.sh" "# @name foo\n# @description d"]
        = [("foo.sh", "# @name foo\n# @description d")]
    ∧ ("scripts/foo.sh" : String) ≠ "foo.sh" :=
  ⟨by decide, by decide, by decide⟩

/-- C2 (amended): the `path` attached to every accepted record is the file's
location relative to the repository root (the parent of the scan root): the
builder's entry list is exactly the scan-root-relative walk with `scripts/`
prefixed to every path, and the record stores the entry's path verbatim. -/
theorem c2_repo_root_relative :
    (∀ (tree : List FS),
      buildEntries tree = (walkMany [] [] tree).map (fun q => ("scripts/" ++ q.1, q.2)))
    ∧ ∀ (meta : Meta) (rel : String), (mkRecord meta rel).path = rel := by
  constructor
  · intro tree
    unfold buildEntries
    rw [walkMany_shift tree ["scripts"] (by simp)]
    apply List.map_congr_left
    intro q _
    rfl
  · intro meta rel
    rfl

/-- C4: for an `@arg` remainder matching the arg grammar, the parsed ArgSpec
is appended to the args sequence; with no modifier it is required (not
variadic, no default); with an `=`-modifier it is optional with the captured
default (everything after `=`, embedded spaces included) and not variadic;
with the `...` modifier it is variadic, optional and has no default — checked
generally over the match result and on the specification's three concrete
examples (with an embedded-space default). -/
theorem c4_arg_modifiers (meta : Meta) (v nm ty d : String) (mod : Option ArgMod)
    (h : argMatch v.data = some (nm, ty, d, mod)) :
    (applyDirective meta "arg" v).args = meta.args ++ [mkArg nm ty d mod]
    ∧ (mod = none → mkArg nm ty d mod = ⟨nm, ty, d, true, false, none⟩)
    ∧ (∀ s, mod = some (ArgMod.dflt s) → mkArg nm ty d mod = ⟨nm, ty, d, false, false, some s⟩)
    ∧ (mod = some ArgMod.variadic → mkArg nm ty d mod = ⟨nm, ty, d, false, true, none⟩)
    ∧ (parseScript "# @arg count number \"n items\" =5 kg").args
        = [⟨"count", "number", "n items", false, false, some "5 kg"⟩]
    ∧ (parseScript "# @arg files string \"inputs\" ...").args
        = [⟨"files", "string", "inputs", false, true, none⟩]
    ∧ (parseScript "# @arg q string \"query\"").args
        = [⟨"q", "string", "query", true, false, none⟩] := by
  refine ⟨?_, ?_, ?_, ?_, by decide, by decide, by decide⟩
  · simp [applyDirective, h]
  · rintro rfl
    rfl
  · rintro s rfl
    rfl
  · rintro rfl
    rfl

/-- Witness for C4: the theorem applied to the concrete remainder
`count number "n items" =5 kg`, whose default keeps the embedded space. -/
theorem c4_witness :
    (applyDirective initialMeta "arg" "count number \"n items\" =5 kg").args
      = initialMeta.args ++ [mkArg "count" "number" "n items" (some (ArgMod.dflt "5 kg"))] :=
  (c4_arg_modifiers initialMeta "count number \"n items\" =5 kg" "count" "number" "n items"
    (some (ArgMod.dflt "5 kg")) (by decide)).1

/-- C9: a manifest entry is built from exactly the fourteen fields name,
description, args, deps, envs, output, header, category, tags, author,
platform, examples, path, version (in source order), and never from the
parser's `stdin` flag: two parses differing only in `stdin` yield the same
record. The `stdin` flag itself is set exactly when the `@stdin` value is the
literal string `true`. -/
theorem c9_manifest_entry_fields :
    (∀ (meta : Meta) (rel : String) (b : Bool),
      mkRecord { meta with stdin := b } rel = mkRecord meta rel)
    ∧ recordFields
        = ["name", "description", "args", "deps", "envs", "output", "header",
           "category", "tags", "author", "platform", "examples", "path", "version"]
    ∧ "stdin" ∉ recordFields
    ∧ ∀ (meta : Meta) (v : String), (applyDirective meta "stdin" v).stdin = (v == "true") :=
  ⟨fun _ _ _ => rfl, rfl, by decide, fun _ _ => rfl⟩

end ScriptBucket
